import Mathlib

/-!
Verification of the Moebius (fractional-linear) transform component of the
hcomplex crate (`src/transform.rs`), embedded shallowly in Lean 4.

The Rust source defines a generic structure `Moebius<T: Float, A: Algebra<T>>`
holding four algebra-valued coefficients, with

  fn apply(&self, x: A) -> A { (self.a*x + self.b)/(self.c*x + self.d) }

  fn chain(&self, other: &Self) -> Self {
      Self::new(
          self.a*other.a + self.b*other.c,
          self.a*other.b + self.b*other.d,
          self.c*other.a + self.d*other.c,
          self.c*other.b + self.d*other.d,
      )
  }

The embedding below is generic over the element type `A`, exactly as the
source is generic over the algebra type; the `PhantomData<T>` marker field
carries no runtime behavior and is omitted (spec section 9 sanctions this).
Floating-point arithmetic is modelled by exact arithmetic: claims stated
"within floating-point tolerance" become exact equalities over division
rings / rationals.
-/

/-- The Moebius transform structure: four coefficients of the algebra type,
mirroring `pub struct Moebius { a, b, c, d }` in `src/transform.rs`. -/
structure Moebius (A : Type) where
  a : A
  b : A
  c : A
  d : A
deriving DecidableEq, Repr

/-- `Moebius::new(a, b, c, d)`: pure construction, no validation. -/
def Moebius.new {A : Type} (a b c d : A) : Moebius A :=
  ⟨a, b, c, d⟩

/-- `Chain::chain for Moebius` (`src/transform.rs` lines 35-44), verbatim:
coefficientwise 2x2 matrix product of `self` and `other`. -/
def Moebius.chain {A : Type} [Mul A] [Add A] (self other : Moebius A) : Moebius A :=
  Moebius.new
    (self.a * other.a + self.b * other.c)
    (self.a * other.b + self.b * other.d)
    (self.c * other.a + self.d * other.c)
    (self.c * other.b + self.d * other.d)

/-- `Transform::apply for Moebius` (`src/transform.rs` lines 46-50), verbatim:
`(self.a*x + self.b)/(self.c*x + self.d)`. -/
def Moebius.apply {A : Type} [Mul A] [Add A] [Div A] (self : Moebius A) (x : A) : A :=
  (self.a * x + self.b) / (self.c * x + self.d)

section AssociativeChaining

variable {A : Type} [DivisionRing A]

/-- Claim C1: over an associative algebra with division (a division ring, which
covers the real, complex and quaternion instances), applying `other` then `self`
agrees with applying the composed transform, at every point where the inner
denominator `other.c * x + other.d` is invertible (where it is not, the spec
leaves the result to the algebra's division-by-noninvertible semantics). -/
theorem moebius_chain_apply (self other : Moebius A) (x : A)
    (h : other.c * x + other.d ≠ 0) :
    self.apply (other.apply x) = (self.chain other).apply x := by
  obtain ⟨a₁, b₁, c₁, d₁⟩ := self
  obtain ⟨a₂, b₂, c₂, d₂⟩ := other
  simp only [Moebius.apply, Moebius.chain, Moebius.new] at *
  rw [div_eq_mul_inv (a₂ * x + b₂)]
  have hnum : a₁ * ((a₂ * x + b₂) * (c₂ * x + d₂)⁻¹) + b₁
      = ((a₁ * a₂ + b₁ * c₂) * x + (a₁ * b₂ + b₁ * d₂)) * (c₂ * x + d₂)⁻¹ := by
    have hb : b₁ = b₁ * (c₂ * x + d₂) * (c₂ * x + d₂)⁻¹ := by
      rw [mul_assoc, mul_inv_cancel₀ h, mul_one]
    calc a₁ * ((a₂ * x + b₂) * (c₂ * x + d₂)⁻¹) + b₁
        = a₁ * (a₂ * x + b₂) * (c₂ * x + d₂)⁻¹
            + b₁ * (c₂ * x + d₂) * (c₂ * x + d₂)⁻¹ := by
          rw [← mul_assoc, ← hb]
      _ = (a₁ * (a₂ * x + b₂) + b₁ * (c₂ * x + d₂)) * (c₂ * x + d₂)⁻¹ := by
          rw [add_mul]
      _ = ((a₁ * a₂ + b₁ * c₂) * x + (a₁ * b₂ + b₁ * d₂)) * (c₂ * x + d₂)⁻¹ := by
          congr 1
          noncomm_ring
  have hden : c₁ * ((a₂ * x + b₂) * (c₂ * x + d₂)⁻¹) + d₁
      = ((c₁ * a₂ + d₁ * c₂) * x + (c₁ * b₂ + d₁ * d₂)) * (c₂ * x + d₂)⁻¹ := by
    have hd : d₁ = d₁ * (c₂ * x + d₂) * (c₂ * x + d₂)⁻¹ := by
      rw [mul_assoc, mul_inv_cancel₀ h, mul_one]
    calc c₁ * ((a₂ * x + b₂) * (c₂ * x + d₂)⁻¹) + d₁
        = c₁ * (a₂ * x + b₂) * (c₂ * x + d₂)⁻¹
            + d₁ * (c₂ * x + d₂) * (c₂ * x + d₂)⁻¹ := by
          rw [← mul_assoc, ← hd]
      _ = (c₁ * (a₂ * x + b₂) + d₁ * (c₂ * x + d₂)) * (c₂ * x + d₂)⁻¹ := by
          rw [add_mul]
      _ = ((c₁ * a₂ + d₁ * c₂) * x + (c₁ * b₂ + d₁ * d₂)) * (c₂ * x + d₂)⁻¹ := by
          congr 1
          noncomm_ring
  rw [hnum, hden, div_eq_mul_inv, mul_inv_rev, inv_inv, mul_assoc,
    ← mul_assoc (c₂ * x + d₂)⁻¹, inv_mul_cancel₀ h, one_mul, ← div_eq_mul_inv]

end AssociativeChaining

/-- Claim C1 witness: the chaining equivalence instantiated over the rationals,
transforms `(1,2,3,4)`, `(5,6,7,8)` and point `1`, whose inner denominator
`7*1 + 8 = 15` is nonzero. -/
theorem moebius_chain_apply_witness :
    ((Moebius.new (5:ℚ) 6 7 8).c * 1 + (Moebius.new (5:ℚ) 6 7 8).d ≠ 0) ∧
    (Moebius.new (1:ℚ) 2 3 4).apply ((Moebius.new (5:ℚ) 6 7 8).apply 1)
      = ((Moebius.new (1:ℚ) 2 3 4).chain (Moebius.new (5:ℚ) 6 7 8)).apply 1 :=
  ⟨by norm_num [Moebius.new],
   moebius_chain_apply (Moebius.new (1:ℚ) 2 3 4) (Moebius.new (5:ℚ) 6 7 8) 1
     (by norm_num [Moebius.new])⟩

section SpecRefinement

variable {A : Type}

/-- Specification-side rendering of `apply` for claim C2, written step by step
in the order the spec fixes: `a*x`, then `+ b`, over `c*x`, then `+ d`, then
the division, with the coefficient multiplied on the left of the point. -/
def applySpec [Mul A] [Add A] [Div A] (m : Moebius A) (x : A) : A :=
  let n₁ := m.a * x
  let n₂ := n₁ + m.b
  let d₁ := m.c * x
  let d₂ := d₁ + m.d
  n₂ / d₂

/-- Claim C2: `apply` computes `(a*x + b) / (c*x + d)` in exactly the order the
spec fixes, with the coefficient multiplied on the left of the point. -/
theorem apply_refines_spec [Mul A] [Add A] [Div A] (m : Moebius A) (x : A) :
    m.apply x = applySpec m x :=
  rfl

/-- Specification-side rendering of `chain` for claim C3: the four coefficient
formulas as written in the spec. -/
def chainSpec [Mul A] [Add A] (m other : Moebius A) : Moebius A :=
  { a := m.a * other.a + m.b * other.c
    b := m.a * other.b + m.b * other.d
    c := m.c * other.a + m.d * other.c
    d := m.c * other.b + m.d * other.d }

/-- The 2x2 matrix of a transform's coefficients, entries in row-major order
`[[a,b],[c,d]]`. -/
def Moebius.toMatrix (m : Moebius A) : Matrix (Fin 2) (Fin 2) A :=
  Matrix.of ![![m.a, m.b], ![m.c, m.d]]

/-- Claim C3: `chain` produces exactly the spec's four coefficient formulas,
and is 2x2 matrix multiplication `self * other` of the row-major coefficient
matrices. -/
theorem chain_refines_spec [NonUnitalNonAssocSemiring A] (m other : Moebius A) :
    m.chain other = chainSpec m other ∧
    (m.chain other).toMatrix = m.toMatrix * other.toMatrix := by
  refine ⟨rfl, ?_⟩
  ext i j
  fin_cases i <;> fin_cases j <;>
    simp [Moebius.toMatrix, Moebius.chain, Moebius.new, Matrix.mul_apply,
      Fin.sum_univ_two]

end SpecRefinement

section IdentityAndAssociativity

/-- Claim C6: for an associative algebra (ring), `chain` is associative:
`(A.chain B).chain C` and `A.chain (B.chain C)` have equal coefficients. -/
theorem chain_assoc {A : Type} [Ring A] (M N P : Moebius A) :
    (M.chain N).chain P = M.chain (N.chain P) := by
  obtain ⟨a₁, b₁, c₁, d₁⟩ := M
  obtain ⟨a₂, b₂, c₂, d₂⟩ := N
  obtain ⟨a₃, b₃, c₃, d₃⟩ := P
  simp only [Moebius.chain, Moebius.new, Moebius.mk.injEq]
  refine ⟨?_, ?_, ?_, ?_⟩ <;> noncomm_ring

/-- Claim C7: the concrete real-valued scenario, in exact arithmetic over ℚ:
`(2,0,0,1)` applied to `3` yields `6`; chained with itself it is `(4,0,0,1)`;
that applied to `3` yields `12`, equal to the double application. -/
theorem scenario_double :
    (Moebius.new (2:ℚ) 0 0 1).apply 3 = 6 ∧
    (Moebius.new (2:ℚ) 0 0 1).chain (Moebius.new (2:ℚ) 0 0 1)
      = Moebius.new (4:ℚ) 0 0 1 ∧
    ((Moebius.new (2:ℚ) 0 0 1).chain (Moebius.new (2:ℚ) 0 0 1)).apply 3 = 12 ∧
    ((Moebius.new (2:ℚ) 0 0 1).chain (Moebius.new (2:ℚ) 0 0 1)).apply 3
      = (Moebius.new (2:ℚ) 0 0 1).apply ((Moebius.new (2:ℚ) 0 0 1).apply 3) := by
  refine ⟨?_, ?_, ?_, ?_⟩ <;> norm_num [Moebius.apply, Moebius.chain, Moebius.new]

end IdentityAndAssociativity

section PurityAndFraming

variable {A : Type}

/-- Claim C8: `apply` and `chain` are deterministic pure functions: two calls
with equal inputs return equal results (the embedding passes no state, matching
the source's freedom from hidden state). -/
theorem apply_chain_deterministic [Mul A] [Add A] [Div A]
    (m₁ m₂ o₁ o₂ : Moebius A) (x₁ x₂ : A)
    (hm : m₁ = m₂) (ho : o₁ = o₂) (hx : x₁ = x₂) :
    m₁.apply x₁ = m₂.apply x₂ ∧ m₁.chain o₁ = m₂.chain o₂ := by
  subst hm; subst ho; subst hx
  exact ⟨rfl, rfl⟩

/-- Claim C8 witness: determinism instantiated at concrete rational inputs. -/
theorem apply_chain_deterministic_witness :
    ((Moebius.new (1:ℚ) 2 3 4) = (Moebius.new (1:ℚ) 2 3 4)) ∧
    (Moebius.new (1:ℚ) 2 3 4).apply 5 = (Moebius.new (1:ℚ) 2 3 4).apply 5 ∧
    (Moebius.new (1:ℚ) 2 3 4).chain (Moebius.new (5:ℚ) 6 7 8)
      = (Moebius.new (1:ℚ) 2 3 4).chain (Moebius.new (5:ℚ) 6 7 8) :=
  ⟨rfl, apply_chain_deterministic (Moebius.new (1:ℚ) 2 3 4) (Moebius.new (1:ℚ) 2 3 4)
    (Moebius.new (5:ℚ) 6 7 8) (Moebius.new (5:ℚ) 6 7 8) 5 5 rfl rfl rfl⟩

/-- The `apply` call as seen by the caller: the Rust method takes `&self` by
shared reference (no interior mutability anywhere in the crate), so the state
the caller observes after the call is the untouched operand together with the
returned value. -/
def applyCall [Mul A] [Add A] [Div A] (m : Moebius A) (x : A) : Moebius A × A :=
  (m, m.apply x)

/-- The `chain` call as seen by the caller: both operands are taken by shared
reference and a fresh instance is returned. -/
def chainCall [Mul A] [Add A] (m other : Moebius A) :
    (Moebius A × Moebius A) × Moebius A :=
  ((m, other), m.chain other)

/-- Claim C9: transforms are immutable: after `apply` the operand's four
coefficients are unchanged; after `chain` both operands' coefficients are
unchanged, and the result is a fresh value built by `new` from the inputs'
coefficients rather than a mutation of either operand. -/
theorem moebius_immutable [Mul A] [Add A] [Div A]
    (m other : Moebius A) (x : A) :
    (applyCall m x).1 = m ∧
    (chainCall m other).1.1 = m ∧
    (chainCall m other).1.2 = other ∧
    (chainCall m other).2
      = Moebius.new
          (m.a * other.a + m.b * other.c)
          (m.a * other.b + m.b * other.d)
          (m.c * other.a + m.d * other.c)
          (m.c * other.b + m.d * other.d) :=
  ⟨rfl, rfl, rfl, rfl⟩

end PurityAndFraming

section CayleyDickson

/-!
The Complex, Quaternion and Octonion element types of the crate are external
collaborators: their implementation is not part of the specified core (spec
sections 1 and 4.1) and their source is not under `src/`. The crate's tests
build them by repeated doubling (`new2` of two halves of the lower algebra),
so they are modelled here from the spec as the standard Cayley-Dickson
construction over exact rationals: each level is a pair of elements of the
level below, with conjugation, componentwise addition, the doubling product,
a rational squared norm, and division `x / y = x * inv y` with
`inv y = (sqrNorm y)⁻¹ • conj y`, as the spec's algebra capability (add,
mul, div, construction from components) requires.
-/

/-- Modelled from the spec: a Cayley-Dickson doubling level, a pair of
elements of the algebra one level below (the crate tests' `new2(re, im)`). -/
structure CD (A : Type) where
  re : A
  im : A
deriving DecidableEq, Repr

/-- Modelled from the spec: the extra structure the doubling needs from each
level: conjugation, a rational squared norm, and rational scaling. -/
class CayleyAlgebra (A : Type) where
  conj : A → A
  sqrNorm : A → ℚ
  scale : ℚ → A → A

instance : CayleyAlgebra ℚ where
  conj x := x
  sqrNorm x := x * x
  scale q x := q * x

variable {A : Type}

instance [Add A] : Add (CD A) :=
  ⟨fun x y => ⟨x.re + y.re, x.im + y.im⟩⟩

instance [Neg A] : Neg (CD A) :=
  ⟨fun x => ⟨-x.re, -x.im⟩⟩

/-- Modelled from the spec: the Cayley-Dickson product
`(a,b) * (c,d) = (a*c - conj d * b, d*a + b * conj c)`. -/
instance [Add A] [Neg A] [Mul A] [CayleyAlgebra A] : Mul (CD A) :=
  ⟨fun x y =>
    ⟨x.re * y.re + -(CayleyAlgebra.conj y.im * x.im),
     y.im * x.re + x.im * CayleyAlgebra.conj y.re⟩⟩

instance [Zero A] : Zero (CD A) :=
  ⟨⟨0, 0⟩⟩

instance [Zero A] [One A] : One (CD A) :=
  ⟨⟨1, 0⟩⟩

instance [Neg A] [CayleyAlgebra A] : CayleyAlgebra (CD A) where
  conj x := ⟨CayleyAlgebra.conj x.re, -x.im⟩
  sqrNorm x := CayleyAlgebra.sqrNorm x.re + CayleyAlgebra.sqrNorm x.im
  scale q x := ⟨CayleyAlgebra.scale q x.re, CayleyAlgebra.scale q x.im⟩

/-- Modelled from the spec: inversion as the conjugate divided by the squared
norm, and division as multiplication by the inverse. -/
def CD.inv [Add A] [Neg A] [Mul A] [CayleyAlgebra A] (x : CD A) : CD A :=
  CayleyAlgebra.scale (CayleyAlgebra.sqrNorm (CD.mk x.re x.im))⁻¹
    (CayleyAlgebra.conj (CD.mk x.re x.im))

instance [Add A] [Neg A] [Mul A] [CayleyAlgebra A] : Div (CD A) :=
  ⟨fun x y => x * CD.inv y⟩

/-- The complex numbers over exact rational scalars. -/
abbrev Cplx : Type := CD ℚ

/-- The quaternions over exact rational scalars. -/
abbrev Quat : Type := CD Cplx

/-- The octonions over exact rational scalars. -/
abbrev Octo : Type := CD Quat

end CayleyDickson

section CDLemmas

variable {A : Type}

@[simp] theorem CD.add_re [Add A] (x y : CD A) : (x + y).re = x.re + y.re := rfl

@[simp] theorem CD.add_im [Add A] (x y : CD A) : (x + y).im = x.im + y.im := rfl

@[simp] theorem CD.neg_re [Neg A] (x : CD A) : (-x).re = -x.re := rfl

@[simp] theorem CD.neg_im [Neg A] (x : CD A) : (-x).im = -x.im := rfl

@[simp] theorem CD.mul_re [Add A] [Neg A] [Mul A] [CayleyAlgebra A] (x y : CD A) :
    (x * y).re = x.re * y.re + -(CayleyAlgebra.conj y.im * x.im) := rfl

@[simp] theorem CD.mul_im [Add A] [Neg A] [Mul A] [CayleyAlgebra A] (x y : CD A) :
    (x * y).im = y.im * x.re + x.im * CayleyAlgebra.conj y.re := rfl

@[simp] theorem CD.zero_re [Zero A] : (0 : CD A).re = 0 := rfl

@[simp] theorem CD.zero_im [Zero A] : (0 : CD A).im = 0 := rfl

@[simp] theorem CD.one_re [Zero A] [One A] : (1 : CD A).re = 1 := rfl

@[simp] theorem CD.one_im [Zero A] [One A] : (1 : CD A).im = 0 := rfl

@[simp] theorem CD.conj_re [Neg A] [CayleyAlgebra A] (x : CD A) :
    (CayleyAlgebra.conj x).re = CayleyAlgebra.conj x.re := rfl

@[simp] theorem CD.conj_im [Neg A] [CayleyAlgebra A] (x : CD A) :
    (CayleyAlgebra.conj x).im = -x.im := rfl

@[simp] theorem CD.scale_re [Neg A] [CayleyAlgebra A] (q : ℚ) (x : CD A) :
    (CayleyAlgebra.scale q x : CD A).re = CayleyAlgebra.scale q x.re := rfl

@[simp] theorem CD.scale_im [Neg A] [CayleyAlgebra A] (q : ℚ) (x : CD A) :
    (CayleyAlgebra.scale q x : CD A).im = CayleyAlgebra.scale q x.im := rfl

@[simp] theorem CD.sqrNorm_def [Neg A] [CayleyAlgebra A] (x : CD A) :
    CayleyAlgebra.sqrNorm x = CayleyAlgebra.sqrNorm x.re + CayleyAlgebra.sqrNorm x.im := rfl

@[simp] theorem CD.div_def [Add A] [Neg A] [Mul A] [CayleyAlgebra A] (x y : CD A) :
    x / y = x * CD.inv y := rfl

@[simp] theorem Rat.cd_conj (q : ℚ) : CayleyAlgebra.conj q = q := rfl

@[simp] theorem Rat.cd_sqrNorm (q : ℚ) : CayleyAlgebra.sqrNorm q = q * q := rfl

@[simp] theorem Rat.cd_scale (q x : ℚ) : CayleyAlgebra.scale q x = q * x := rfl

end CDLemmas

theorem CD.ext {A : Type} (x y : CD A) (hre : x.re = y.re) (him : x.im = y.im) :
    x = y := by
  cases x; cases y; cases hre; cases him; rfl

attribute [ext] CD.ext

theorem Octo.add_zero (y : Octo) : y + 0 = y := by
  obtain ⟨⟨⟨y0, y1⟩, ⟨y2, y3⟩⟩, ⟨⟨y4, y5⟩, ⟨y6, y7⟩⟩⟩ := y
  ext <;> simp

theorem Octo.zero_add (y : Octo) : 0 + y = y := by
  obtain ⟨⟨⟨y0, y1⟩, ⟨y2, y3⟩⟩, ⟨⟨y4, y5⟩, ⟨y6, y7⟩⟩⟩ := y
  ext <;> simp

theorem Octo.zero_mul (y : Octo) : 0 * y = 0 := by
  obtain ⟨⟨⟨y0, y1⟩, ⟨y2, y3⟩⟩, ⟨⟨y4, y5⟩, ⟨y6, y7⟩⟩⟩ := y
  ext <;> simp

theorem Octo.mul_zero (y : Octo) : y * 0 = 0 := by
  obtain ⟨⟨⟨y0, y1⟩, ⟨y2, y3⟩⟩, ⟨⟨y4, y5⟩, ⟨y6, y7⟩⟩⟩ := y
  ext <;> simp

theorem Octo.one_mul (y : Octo) : 1 * y = y := by
  obtain ⟨⟨⟨y0, y1⟩, ⟨y2, y3⟩⟩, ⟨⟨y4, y5⟩, ⟨y6, y7⟩⟩⟩ := y
  ext <;> simp

theorem Octo.mul_one (y : Octo) : y * 1 = y := by
  obtain ⟨⟨⟨y0, y1⟩, ⟨y2, y3⟩⟩, ⟨⟨y4, y5⟩, ⟨y6, y7⟩⟩⟩ := y
  ext <;> simp

theorem Octo.div_one (y : Octo) : y / 1 = y := by
  obtain ⟨⟨⟨y0, y1⟩, ⟨y2, y3⟩⟩, ⟨⟨y4, y5⟩, ⟨y6, y7⟩⟩⟩ := y
  ext <;> simp [CD.inv]

/-- The octonion unit along the first imaginary axis. -/
def octE1 : Octo := ⟨⟨⟨0, 1⟩, ⟨0, 0⟩⟩, ⟨⟨0, 0⟩, ⟨0, 0⟩⟩⟩

/-- The octonion unit along the second imaginary axis. -/
def octE2 : Octo := ⟨⟨⟨0, 0⟩, ⟨1, 0⟩⟩, ⟨⟨0, 0⟩, ⟨0, 0⟩⟩⟩

/-- The octonion unit along the fourth imaginary axis (the doubling unit). -/
def octE4 : Octo := ⟨⟨⟨0, 0⟩, ⟨0, 0⟩⟩, ⟨⟨1, 0⟩, ⟨0, 0⟩⟩⟩

/-- Claim C4: over the (non-associative) octonions the chaining equivalence
fails: there are transforms and a point where applying one transform after the
other differs from applying the chained transform, even though `chain` is
computed from `+` and `*` exactly as over associative algebras. The witnesses
are `(e1, 0, 0, 1)`, `(e2, 0, 0, 1)` and the point `e4`, three imaginary units
forming a non-associating triple. -/
theorem octonion_chain_divergence :
    ∃ (s o : Moebius Octo) (x : Octo),
      s.apply (o.apply x) ≠ (s.chain o).apply x := by
  refine ⟨Moebius.new octE1 0 0 1, Moebius.new octE2 0 0 1, octE4, ?_⟩
  have hl : octE1 * (octE2 * octE4)
      = ⟨⟨⟨0, 0⟩, ⟨0, 0⟩⟩, ⟨⟨0, 0⟩, ⟨0, -1⟩⟩⟩ := by
    ext <;> simp [octE1, octE2, octE4]
  have hr : octE1 * octE2 * octE4
      = ⟨⟨⟨0, 0⟩, ⟨0, 0⟩⟩, ⟨⟨0, 0⟩, ⟨0, 1⟩⟩⟩ := by
    ext <;> simp [octE1, octE2, octE4]
  simp only [Moebius.apply, Moebius.chain, Moebius.new, Octo.zero_mul,
    Octo.mul_zero, Octo.one_mul, Octo.mul_one, Octo.add_zero, Octo.zero_add,
    Octo.div_one, hl, hr]
  norm_num [CD.mk.injEq]

/-- Claim C5: the identity transform `new(1, 0, 0, 1)` fixes every point, both
over any division ring (the associative algebras: real, complex, quaternion)
and over the modelled octonions. -/
theorem identity_apply :
    (∀ (A : Type) [DivisionRing A] (x : A), (Moebius.new 1 0 0 1).apply x = x) ∧
    (∀ x : Octo, (Moebius.new 1 0 0 1).apply x = x) := by
  constructor
  · intro A _ x
    simp [Moebius.apply, Moebius.new]
  · intro x
    simp only [Moebius.apply, Moebius.new, Octo.one_mul, Octo.zero_mul,
      Octo.add_zero, Octo.zero_add, Octo.div_one]

section IdentityElement

/-- A three-element carrier used to probe exactly which identities of the
algebra the two-sided identity law for `chain` needs. -/
inductive E3 where
  | z : E3
  | o : E3
  | e : E3
deriving DecidableEq

instance : Fintype E3 :=
  ⟨⟨{E3.z, E3.o, E3.e}, by decide⟩, by intro x; cases x <;> decide⟩

instance : Zero E3 :=
  ⟨E3.z⟩

instance : One E3 :=
  ⟨E3.o⟩

/-- An addition on `E3` with `x + 0 = x` for every `x`, but `0 + e = 0`:
right-zero absorption without left-zero absorption. -/
def E3.add : E3 → E3 → E3
  | x, .z => x
  | .z, _ => .z
  | .o, .o => .o
  | .o, .e => .e
  | .e, .o => .e
  | .e, .e => .e

instance : Add E3 :=
  ⟨E3.add⟩

/-- A multiplication on `E3` with `1` a two-sided unit and `0` two-sided
absorbing. -/
def E3.mul : E3 → E3 → E3
  | .o, x => x
  | x, .o => x
  | .z, _ => .z
  | _, .z => .z
  | .e, .e => .e

instance : Mul E3 :=
  ⟨E3.mul⟩

/-- Claim C10 counterexample: an algebra satisfying every identity the claim
lists — `1*x = x*1 = x`, `0*x = x*0 = 0`, `x+0 = x` — on which
`new(1,0,0,1).chain(M)` nevertheless differs from `M`: the claim's list is
missing `0 + x = x`, which `chain`'s coefficient `0*a' + 1*c'` needs. -/
theorem identity_chain_counterexample :
    (∀ x : E3, 1 * x = x ∧ x * 1 = x ∧ 0 * x = 0 ∧ x * 0 = 0 ∧ x + 0 = x) ∧
    ¬ ((Moebius.new (1 : E3) 0 0 1).chain (Moebius.new E3.e E3.e E3.e E3.e)
          = Moebius.new E3.e E3.e E3.e E3.e ∧
        (Moebius.new E3.e E3.e E3.e E3.e).chain (Moebius.new (1 : E3) 0 0 1)
          = Moebius.new E3.e E3.e E3.e E3.e) := by
  constructor
  · intro x
    cases x <;> exact ⟨rfl, rfl, rfl, rfl, rfl⟩
  · intro h
    exact absurd h.1 (by decide)

/-- Claim C10 (amended): `new(1,0,0,1)` is a two-sided identity for `chain`
over any algebra whose `+` and `*` satisfy `1*x = x*1 = x`, `0*x = x*0 = 0`,
`x+0 = x` and additionally `0+x = x`. -/
theorem identity_chain_two_sided {A : Type} [Mul A] [Add A] [Zero A] [One A]
    (h1 : ∀ x : A, 1 * x = x) (h2 : ∀ x : A, x * 1 = x)
    (h3 : ∀ x : A, 0 * x = 0) (h4 : ∀ x : A, x * 0 = 0)
    (h5 : ∀ x : A, x + 0 = x) (h6 : ∀ x : A, 0 + x = x)
    (M : Moebius A) :
    (Moebius.new 1 0 0 1).chain M = M ∧ M.chain (Moebius.new 1 0 0 1) = M := by
  obtain ⟨a, b, c, d⟩ := M
  simp only [Moebius.chain, Moebius.new, Moebius.mk.injEq, h1, h2, h3, h4, h5, h6]
  exact ⟨trivial, trivial⟩

/-- Claim C10 (amended) witness: the two-sided identity law instantiated over
the rationals at the transform `(5,6,7,8)`. -/
theorem identity_chain_two_sided_witness :
    (Moebius.new (1 : ℚ) 0 0 1).chain (Moebius.new (5 : ℚ) 6 7 8)
        = Moebius.new (5 : ℚ) 6 7 8 ∧
      (Moebius.new (5 : ℚ) 6 7 8).chain (Moebius.new (1 : ℚ) 0 0 1)
        = Moebius.new (5 : ℚ) 6 7 8 :=
  identity_chain_two_sided (fun x => one_mul x) (fun x => mul_one x)
    (fun x => zero_mul x) (fun x => mul_zero x) (fun x => add_zero x)
    (fun x => zero_add x) (Moebius.new (5 : ℚ) 6 7 8)

end IdentityElement
